import Mathlib

/-!
Verification of the swugenerator package-assembly pipeline
(`swugenerator/artifact.py`, `swugenerator/generator.py`).

The development is a shallow embedding of the Python source:
* file contents are `List Nat` (byte lists), the filesystem is an
  association list from path strings to contents;
* the external tools (gzip, zstd, openssl, secrets.token_hex, hashlib)
  are opaque functions collected in an `Ext` record — the repository
  treats them as all-or-nothing black boxes;
* `sys.exit(n)` and uncaught Python exceptions are modelled by the
  error monad `Except PErr`.
-/

namespace SwuGen

/-- A filesystem: association list from path to byte content.
`Fs.write` shadows earlier entries, `Fs.read` takes the first match. -/
abbrev Fs : Type := List (String × List Nat)

def Fs.read (fs : Fs) (p : String) : Option (List Nat) :=
  match fs with
  | [] => none
  | (q, bs) :: rest => if q = p then some bs else Fs.read rest p

def Fs.write (fs : Fs) (p : String) (bs : List Nat) : Fs :=
  (p, bs) :: fs

/-- A Python value appearing as the `compressed` attribute of a manifest
entry: in practice either a libconf boolean or a string naming an
algorithm. -/
inductive CVal
  | bool (b : Bool)
  | str (s : String)
deriving DecidableEq

/-- Python truthiness for `CVal`: `if cmp:` in `process_entry`. -/
def CVal.truthy : CVal → Bool
  | .bool b => b
  | .str s => ¬ (s = "")

/-- Abnormal terminations of the pipeline.
`exit n` models `sys.exit(n)` (always preceded in the source by a
`logging.critical` call, which we do not model further).  The other
constructors model uncaught Python exceptions: `attrError` for reading
an attribute that was never assigned (or `eval` resolving an unknown
name), `typeError` for passing `None` where a string is required
(e.g. `subprocess.run` with a `None` argv element), `keyError` for a
failed dict lookup, `fileNotFound` for `shutil.copyfile` on a missing
source.  `arbitraryCall name` marks the point where `eval` dispatches
to a generator attribute outside the two template built-ins: arbitrary
repository code runs there.  `fuel` marks exhaustion of the fuel used
to model the unbounded `while True` substitution loop. -/
inductive PErr
  | exit (code : Nat)
  | attrError
  | typeError
  | keyError (name : String)
  | fileNotFound
  | arbitraryCall (name : String)
  | fuel
deriving DecidableEq

/-- The external world: outcomes of the external tool invocations and
of hashing.  `gzipRun`/`zstdRun` return `none` on a nonzero compressor
exit.  `aes key iv bytes` returns `none` on a nonzero `openssl` exit;
`cipherFailLeavesFile` is the content (if any) that a failing `openssl`
leaves at its `-out` path.  `tokenHex i` is the `i`-th value drawn from
`secrets.token_hex(16)`. -/
structure Ext where
  sha256 : List Nat → String
  gzipRun : List Nat → Option (List Nat)
  zstdRun : List Nat → Option (List Nat)
  aes : String → String → List Nat → Option (List Nat)
  cipherFailLeavesFile : Option (List Nat)
  tokenHex : Nat → String

/-- `swugenerator/artifact.py`, class `Artifact`.
`__init__` assigns `filename`, `source_path`, `archived_filename` and
`size` only.  The Python object acquires `fullfilename` and `ivt`
attributes later (or never); `none` models the unassigned state, and
every read of these two fields in the embedding goes through an
explicit `attrError` branch, mirroring Python's `AttributeError`. -/
structure Artifact where
  filename : String
  source_path : Option String
  archived_filename : String
  size : Nat
  fullfilename : Option String := none
  ivt : Option String := none
deriving DecidableEq

/-- `Artifact._get_artifact_source_path`: first directory (in order)
containing the file. -/
def getArtifactSourcePath (fs : Fs) (filename : String) :
    List String → Option String
  | [] => none
  | d :: rest =>
    let p := d ++ "/" ++ filename
    if (Fs.read fs p).isSome then some p
    else getArtifactSourcePath fs filename rest

/-- `Artifact.__init__` (size is initialised to 0). -/
def Artifact.init (fs : Fs) (filename : String) (dirs : List String) :
    Artifact :=
  { filename := filename
    source_path := getArtifactSourcePath fs filename dirs
    archived_filename := filename
    size := 0 }

/-- `Artifact.exists`: source path set and still present on disk. -/
def Artifact.existsOn (a : Artifact) (fs : Fs) : Bool :=
  match a.source_path with
  | some p => (Fs.read fs p).isSome
  | none => false

/-- `Artifact.get_sha256`: `None` when the artifact does not exist,
otherwise the hash of the bytes at `source_path`.  The Python code
streams the file in 1024-byte chunks; chunked hashing of the same
content yields the same digest, so the model hashes the content in
one step. -/
def Artifact.get_sha256 (a : Artifact) (ext : Ext) (fs : Fs) :
    Option String :=
  match a.source_path with
  | none => none
  | some p =>
    match Fs.read fs p with
    | none => none
    | some bs => some (ext.sha256 bs)

/-- `Artifact.get_size`: `st_size` of the source, 0 if absent. -/
def Artifact.get_size (a : Artifact) (fs : Fs) : Nat :=
  match a.source_path with
  | none => 0
  | some p =>
    match Fs.read fs p with
    | none => 0
    | some bs => bs.length

/-- `Artifact.encrypt`: `false` immediately when `source_path` is unset;
otherwise invoke `openssl enc -aes-256-cbc` on the source file.  A
`None` key ends up as a `None` element of the argv list, which makes
`subprocess.run` raise `TypeError` (only `CalledProcessError` is
caught).  A nonzero openssl exit is caught and reported as `false`;
whatever the failing openssl left at the `-out` path stays on disk. -/
def Artifact.encrypt (a : Artifact) (ext : Ext) (fs : Fs) (out : String)
    (key : Option String) (iv : String) : Except PErr (Bool × Fs) :=
  match a.source_path with
  | none => .ok (false, fs)
  | some src =>
    match key with
    | none => .error .typeError
    | some k =>
      match Fs.read fs src with
      | none =>
        match ext.cipherFailLeavesFile with
        | none => .ok (false, fs)
        | some junk => .ok (false, Fs.write fs out junk)
      | some bs =>
        match ext.aes k iv bs with
        | none =>
          match ext.cipherFailLeavesFile with
          | none => .ok (false, fs)
          | some junk => .ok (false, Fs.write fs out junk)
        | some enc => .ok (true, Fs.write fs out enc)

/-- The generator's mutable state and policy flags
(`SWUGenerator.__init__`).  `ivCount` indexes the stream of values
drawn from `secrets.token_hex` by `generate_iv`. -/
structure GenState where
  artifacts : List Artifact
  artifactory : List String
  tempdir : String
  aeskey : Option String
  aesiv : String
  encryptswdesc : Bool
  nocompress : Bool
  noencrypt : Bool
  noivt : Bool
  ivCount : Nat
deriving DecidableEq

/-- A manifest entry: a node of the parsed manifest tree carrying a
`filename` key.  `encrypted` records presence of the `encrypted` key
(the source only tests membership).  `sha256`/`ivt` are `none` while
the keys are absent. -/
structure Entry where
  filename : Option String
  compressed : Option CVal
  encrypted : Bool
  sha256 : Option String := none
  ivt : Option String := none
deriving DecidableEq

/-- The dedup lookup, `generator.py` lines 71-74: first registered
artifact whose (original) filename equals the entry's filename. -/
def findArtifact (l : List Artifact) (f : String) : Option Artifact :=
  l.find? (fun a => a.filename = f)

/-- `generator.py` lines 85-90: determine the compression algorithm.
`cmp = entry["compressed"]; if cmp: cmp = "zlib"` — every truthy value
(including the string `"zstd"`) is remapped to `"zlib"`; only a falsy
value survives to the membership test `cmp not in ("zlib", "zstd")`,
which then always fails fatally (`sys.exit(1)`). -/
def compressionAlgo (c : CVal) : Except PErr String :=
  let c1 := if c.truthy then CVal.str "zlib" else c
  match c1 with
  | .str s => if s = "zlib" ∨ s = "zstd" then .ok s else .error (.exit 1)
  | .bool _ => .error (.exit 1)

/-- `generator.py` lines 155-158, the tail shared by the first-seen and
dedup paths: overwrite the entry's `filename` with the artifact's
current `archived_filename`, its `sha256` with `get_sha256()` (which
reads `source_path`), and, when the entry declares `encrypted`, its
`ivt` with the artifact's `ivt` attribute — reading that attribute when
it was never assigned raises `AttributeError`. -/
def finishEntry (ext : Ext) (fs : Fs) (e : Entry) (a : Artifact) :
    Except PErr Entry :=
  let e1 := { e with filename := some a.archived_filename
                     sha256 := a.get_sha256 ext fs }
  if e.encrypted then
    match a.ivt with
    | none => .error .attrError
    | some iv => .ok { e1 with ivt := some iv }
  else .ok e1

/-- `generator.py` lines 131-158, the part of the first-seen path
after the compression step, operating on the artifact `a3` the
compression step produced and the filesystem `fs` as of that point:
the encryption step (lines 131-149), the registry append (line 151)
and the shared entry-rewrite tail (lines 155-158). -/
def process_entry_tail (ext : Ext) (fs : Fs) (g : GenState) (e : Entry)
    (a3 : Artifact) : Except PErr (Fs × GenState × Entry) := do
  let step2 ←
    match e.encrypted, g.noencrypt with
    | true, false => do
      -- a missing key is only logged at critical level here
      -- (line 133); execution falls through with aeskey = None
      let iv := if g.noivt then g.aesiv else ext.tokenHex g.ivCount
      let drew : Nat := if g.noivt then 0 else 1
      let a4 := { a3 with archived_filename :=
                    a3.archived_filename ++ "." ++ "enc" }
      let newPath := g.tempdir ++ "/" ++ a4.archived_filename
      let r ← a4.encrypt ext fs newPath g.aeskey iv
      if r.1 = false then throw (PErr.exit 1) else
      pure (r.2,
            { a4 with fullfilename := some newPath, ivt := some iv },
            { e with ivt := some iv }, drew)
    | _, _ => pure (fs, a3, e, 0)
  let fs2 := step2.1
  let a5 := step2.2.1
  let e2 := step2.2.2.1
  let g1 := { g with artifacts := g.artifacts ++ [a5],
                     ivCount := g.ivCount + step2.2.2.2 }
  let e3 ← finishEntry ext fs2 e2 a5
  .ok (fs2, g1, e3)

/-- `SWUGenerator.process_entry` (`generator.py` lines 67-158).
Returns the updated filesystem (temporary-directory outputs), the
updated generator state, and the entry as rewritten in place. -/
def process_entry (ext : Ext) (fs : Fs) (g : GenState) (e : Entry) :
    Except PErr (Fs × GenState × Entry) :=
  match e.filename with
  | none => .ok (fs, g, e)
  | some fname =>
    match findArtifact g.artifacts fname with
    | some a => do
      -- dedup hit: no resolution, no transform, no registration
      let e' ← finishEntry ext fs e a
      .ok (fs, g, e')
    | none => do
      let a0 := Artifact.init fs fname g.artifactory
      if a0.existsOn fs = false then throw (.exit 22) else do
      let a1 := { a0 with archived_filename := fname }
      -- compression (lines 84-128)
      let step1 ←
        match e.compressed, g.nocompress with
        | some cv, false => do
          let algo ← compressionAlgo cv
          let newPath := g.tempdir ++ "/" ++ a1.archived_filename
                           ++ "." ++ algo
          let a2 := { a1 with archived_filename :=
                        a1.archived_filename ++ "." ++ algo }
          -- building the command list reads `new.fullfilename`,
          -- an attribute `__init__` never assigned (lines 104/115)
          match a2.fullfilename with
          | none => throw PErr.attrError
          | some ff => do
            let src := (Fs.read fs ff).getD []
            let out ←
              match (if algo = "zlib" then ext.gzipRun src
                     else ext.zstdRun src) with
              | none => throw (PErr.exit 1)
              | some o => pure o
            pure (Fs.write fs newPath out,
                  { a2 with fullfilename := some newPath })
        | _, _ => pure (fs, a1)
      process_entry_tail ext step1.1 g e step1.2

/-- `shutil.copyfile`: raises `FileNotFoundError` when the source is
absent, otherwise copies the bytes. -/
def copyfile (fs : Fs) (src dst : String) : Except PErr Fs :=
  match Fs.read fs src with
  | none => .error .fileNotFound
  | some bs => .ok (Fs.write fs dst bs)

/-- `generator.py` lines 217-227, the whole-manifest encryption block
of `process`: when `encryptswdesc` is set, a missing key is again only
logged; `sw.encrypt` is invoked with the run's fixed IV and its boolean
result is DISCARDED (line 226 is a bare call); the block then
unconditionally copies the `-out` file over the plaintext manifest. -/
def encrypt_swdesc_block (ext : Ext) (fs : Fs) (g : GenState)
    (sw : Artifact) (swdescFilename : String) :
    Except PErr (Fs × Artifact) :=
  if g.encryptswdesc = false then .ok (fs, sw) else do
    let iv := g.aesiv
    let sw1 := { sw with fullfilename := some swdescFilename }
    let swdescEnc := swdescFilename ++ ".enc"
    let r ← sw1.encrypt ext fs swdescEnc g.aeskey iv
    -- r.1 (the success boolean) is not inspected by the source
    let fs2 ← copyfile r.2 swdescEnc swdescFilename
    .ok (fs2, sw1)

/-- `generator.py` lines 229-230, the final packaging loop: reads
`artifact.fullfilename` for every registered artifact (an
`AttributeError` when the attribute was never assigned) and hands the
paths to the external container writer, in registration order. -/
def addArtifactsToSwu : List Artifact → Except PErr (List String)
  | [] => .ok []
  | a :: rest =>
    match a.fullfilename with
    | none => .error .attrError
    | some p => do
      let ps ← addArtifactsToSwu rest
      .ok (p :: ps)

/-!
The directive expander (`_expand_variables`, `_exec_functions`).

Template lines are `List Char` (one element of `self.lines`, trailing
newline included).  The two Python regexes are embedded by exhaustive
decomposition search in the greedy backtracking order of the `re`
module: `.` matches any character except a newline, `\w` a word
character, and the `$` anchor matches at the end of the string or just
before one trailing newline.
-/

def wordChar (c : Char) : Bool := c.isAlphanum || c = '_'

/-- `(.+)`: nonempty and newline-free. -/
def dotp (l : List Char) : Bool := !l.isEmpty && !l.contains '\n'

/-- `(\w+)`: nonempty and all word characters. -/
def wordp (l : List Char) : Bool := !l.isEmpty && l.all wordChar

/-- Scope of the `$` anchor: the region a `^...$` pattern must cover,
i.e. the line with one trailing newline (if any) removed. -/
def stripNl (l : List Char) : List Char :=
  if l.getLast? = some '\n' then l.dropLast else l

/-- All splits `(pre, suf)` with `pre ++ suf = l`, shortest `pre`
first. -/
def splits : List Char → List (List Char × List Char)
  | [] => [([], [])]
  | c :: cs => ([], c :: cs) :: (splits cs).map (fun p => (c :: p.1, p.2))

/-- Decompositions `rest = n ++ '@' :: '@' :: a`, longest `n` first. -/
def varTail (rest : List Char) : List (List Char × List Char) :=
  ((splits rest).reverse).filterMap (fun p =>
    match p.2 with
    | c1 :: c2 :: a =>
      if c1 = '@' ∧ c2 = '@' then some (p.1, a) else none
    | _ => none)

/-- Decompositions `core = b ++ '@' :: '@' :: (n ++ '@' :: '@' :: a)`,
enumerated in the greedy backtracking order of
`^(.+)@@(\w+)@@(.+)$`: longest `b` first, then longest `n`. -/
def varDecomps (core : List Char) :
    List (List Char × List Char × List Char) :=
  (((splits core).reverse).map (fun p =>
    match p.2 with
    | c1 :: c2 :: rest =>
      if c1 = '@' ∧ c2 = '@' then
        (varTail rest).map (fun q => (p.1, q.1, q.2))
      else []
    | _ => [])).flatten

def varOk : List Char × List Char × List Char → Bool
  | (b, n, a) => dotp b && wordp n && dotp a

/-- `re.match` of `^(?P<before>.+)@@(?P<name>\w+)@@(?P<after>.+)$`
against a line (`generator.py` lines 236-239). -/
def matchVar (line : List Char) :
    Option (List Char × List Char × List Char) :=
  (varDecomps (stripNl line)).find? varOk

def lookupVar (vars : List (List Char × List Char)) (n : List Char) :
    Option (List Char) :=
  (vars.find? (fun p => p.1 = n)).map (fun p => p.2)

/-- The `while True` rewrite loop of `_expand_variables` for one line
(lines 235-249), fuelled: the source loop is unbounded (a variable
value may itself contain a placeholder), `PErr.fuel` marks the
unfinished case.  The matched groups drop everything outside them, so
a trailing newline sitting after the matched `after` group is lost by
the rewrite, exactly as in the source.  A name absent from the
variable map raises `KeyError` (line 241). -/
def expandLine (vars : List (List Char × List Char)) :
    Nat → List Char → Except PErr (List Char)
  | 0, _ => .error .fuel
  | fuel + 1, line =>
    match matchVar line with
    | none => .ok line
    | some (b, n, a) =>
      match lookupVar vars n with
      | none => .error (.keyError (String.mk n))
      | some v => expandLine vars fuel (b ++ v ++ a)

/-- `_expand_variables` over the whole template. -/
def expand_variables (vars : List (List Char × List Char)) (fuel : Nat)
    (lines : List (List Char)) : Except PErr (List (List Char)) :=
  lines.mapM (expandLine vars fuel)

/-- Decompositions `rest2 = parms ++ ')' :: a`, longest `parms`
first. -/
def funcTail2 (rest2 : List Char) : List (List Char × List Char) :=
  ((splits rest2).reverse).filterMap (fun p =>
    match p.2 with
    | c :: a => if c = ')' then some (p.1, a) else none
    | _ => none)

/-- Decompositions `rest = n ++ '(' :: (parms ++ ')' :: a)`. -/
def funcTail1 (rest : List Char) :
    List (List Char × List Char × List Char) :=
  (((splits rest).reverse).map (fun p =>
    match p.2 with
    | c :: rest2 =>
      if c = '(' then (funcTail2 rest2).map (fun q => (p.1, q.1, q.2))
      else []
    | _ => [])).flatten

/-- Decompositions
`core = b ++ '$' :: (n ++ '(' :: (parms ++ ')' :: a))` in greedy
order. -/
def funcDecomps (core : List Char) :
    List (List Char × List Char × List Char × List Char) :=
  (((splits core).reverse).map (fun p =>
    match p.2 with
    | c :: rest =>
      if c = '$' then (funcTail1 rest).map (fun q => (p.1, q))
      else []
    | _ => [])).flatten

def funcOk : List Char × List Char × List Char × List Char → Bool
  | (b, n, pm, a) => dotp b && wordp n && dotp pm && dotp a

/-- `re.match` of
`^(?P<before>.+)\$(?P<fn>\w+)\((?P<parms>.+)\)(?P<after>.+)$`
(`generator.py` lines 255-258). -/
def matchFunc (line : List Char) :
    Option (List Char × List Char × List Char × List Char) :=
  (funcDecomps (stripNl line)).find? funcOk

/-- The methods defined on class `SWUGenerator` — the namespace that
`eval("self." + name + "(...)")` resolves `name` against (the instance
attributes set in `__init__` resolve as well; listing the methods
suffices for the theorems below, which only need the namespace to
strictly exceed the two template built-ins). -/
def generatorMethods : List String :=
  ["__init__", "generate_iv", "_read_swdesc", "close", "process_entry",
   "find_files_in_swdesc", "save_swdescription", "process",
   "_expand_variables", "_exec_functions", "setenckey",
   "swupdate_get_sha256", "swupdate_get_size"]

/-- Modelled from the spec: the fixed allow-list of template built-in
functions the spec prescribes (hash lookup and size lookup).  The
source has no such list; this definition exists to be compared with
the dispatch the source actually performs. -/
def templateBuiltins : List String :=
  ["swupdate_get_sha256", "swupdate_get_size"]

/-- `eval('self.' + name + '("' + parms + '")')` in `_exec_functions`
(lines 260-263).  The two built-ins compute a hash or a size of a
fresh `Artifact`; `swupdate_get_sha256` may return `None`, which the
caller then concatenates into a string, raising `TypeError`.  Any
other attribute of the generator resolves and is invoked —
`arbitraryCall` marks that arbitrary repository code runs.  A name
that is no attribute at all raises an uncaught `AttributeError`. -/
def evalSelfCall (ext : Ext) (fs : Fs) (g : GenState)
    (name parms : String) : Except PErr String :=
  if name = "swupdate_get_sha256" then
    match (Artifact.init fs parms g.artifactory).get_sha256 ext fs with
    | some h => .ok h
    | none => .error .typeError
  else if name = "swupdate_get_size" then
    .ok (toString ((Artifact.init fs parms g.artifactory).get_size fs))
  else if name ∈ generatorMethods then .error (.arbitraryCall name)
  else .error .attrError

/-- `_exec_functions` for one line (lines 254-270): at most one match
per line; on a match, evaluate the constructed expression and splice
the result between the groups, appending a newline. -/
def execLine (ext : Ext) (fs : Fs) (g : GenState) (line : List Char) :
    Except PErr (List Char) :=
  match matchFunc line with
  | none => .ok line
  | some (b, n, pm, a) => do
    let r ← evalSelfCall ext fs g (String.mk n) (String.mk pm)
    .ok (b ++ r.toList ++ a ++ ['\n'])

/-- `_exec_functions` over the whole template. -/
def exec_functions (ext : Ext) (fs : Fs) (g : GenState)
    (lines : List (List Char)) : Except PErr (List (List Char)) :=
  lines.mapM (execLine ext fs g)

/-!
Concrete fixtures for evaluating the pipeline at specific inputs: a
toy hash that is injective on the byte lists occurring below, a cipher
that appends a tag byte, compressors that prepend one.
-/

def extT : Ext :=
  { sha256 := fun bs => "h" ++ toString bs.length ++ "s" ++ toString bs.sum
    gzipRun := fun bs => some (0 :: bs)
    zstdRun := fun bs => some (1 :: bs)
    aes := fun _ _ bs => some (bs ++ [9])
    cipherFailLeavesFile := none
    tokenHex := fun i => "iv" ++ toString i }

/-- A world whose cipher always exits nonzero. -/
def extF : Ext := { extT with aes := fun _ _ _ => none }

/-- One artifact `f` with bytes `[3, 7]` in search directory `d`. -/
def fs0 : Fs := [("d/f", [3, 7])]

def g0 : GenState :=
  { artifacts := [], artifactory := ["d"], tempdir := "t",
    aeskey := some "K", aesiv := "IV0", encryptswdesc := false,
    nocompress := false, noencrypt := false, noivt := true,
    ivCount := 0 }

def gNoKey : GenState := { g0 with aeskey := none }

def gSwdesc : GenState := { g0 with encryptswdesc := true }

/-- The `sw-description` pseudo-artifact of `process` (line 187): no
file of that name exists in the search directories. -/
def swDesc : Artifact := Artifact.init fs0 "sw-description" ["d"]

def eEnc : Entry :=
  { filename := some "f", compressed := none, encrypted := true }

def eZstd : Entry :=
  { filename := some "f", compressed := some (.str "zstd"),
    encrypted := false }

def eCTrue : Entry :=
  { filename := some "f", compressed := some (.bool true),
    encrypted := false }

def eCFalse : Entry :=
  { filename := some "f", compressed := some (.bool false),
    encrypted := false }

def eCEmpty : Entry :=
  { filename := some "f", compressed := some (.str ""),
    encrypted := false }

def eMissing : Entry :=
  { filename := some "zzz", compressed := none, encrypted := false }

def ePlain : Entry :=
  { filename := some "f", compressed := none, encrypted := false }

/-- The artifact produced by a successful first-seen run of
`process_entry extT fs0 g0 eEnc`. -/
def aEncFix : Artifact :=
  { filename := "f", source_path := some "d/f",
    archived_filename := "f.enc", size := 0,
    fullfilename := some "t/f.enc", ivt := some "IV0" }

/-- Filesystem after that run: the encrypted copy in the temporary
directory beside the untouched source. -/
def fs1Fix : Fs := [("t/f.enc", [3, 7, 9]), ("d/f", [3, 7])]

def g1Fix : GenState := { g0 with artifacts := [aEncFix] }

/-- The rewritten entry of that run. -/
def e1Fix : Entry :=
  { filename := some "f.enc", compressed := none, encrypted := true,
    sha256 := some "h2s10", ivt := some "IV0" }

/-!
Soundness of the embedded regex matchers: a successful match yields a
genuine decomposition of the anchored region, with all group
constraints satisfied.
-/

theorem splits_spec : ∀ (l p s : List Char), (p, s) ∈ splits l →
    p ++ s = l := by
  intro l
  induction l with
  | nil =>
    intro p s h
    simp only [splits, List.mem_singleton, Prod.mk.injEq] at h
    simp [h.1, h.2]
  | cons c cs ih =>
    intro p s h
    simp only [splits, List.mem_cons, List.mem_map, Prod.mk.injEq] at h
    rcases h with ⟨hp, hs⟩ | ⟨⟨q1, q2⟩, hq, hq1, hq2⟩
    · simp [hp, hs]
    · subst hq1; subst hq2
      simpa using ih q1 q2 hq

theorem varTail_spec {rest n a : List Char} (h : (n, a) ∈ varTail rest) :
    rest = n ++ '@' :: '@' :: a := by
  simp only [varTail, List.mem_filterMap, List.mem_reverse] at h
  obtain ⟨⟨p1, p2⟩, hp, hf⟩ := h
  have hsplit := splits_spec rest p1 p2 hp
  match p2, hf with
  | c1 :: c2 :: t, hf =>
    simp only at hf
    split at hf
    · rename_i hc
      obtain ⟨hc1, hc2⟩ := hc
      injection hf with hpair
      injection hpair with h1 h2
      subst hc1; subst hc2; subst h1; subst h2
      exact hsplit.symm
    · exact absurd hf (by simp)

theorem varDecomps_spec {core b n a : List Char}
    (h : (b, n, a) ∈ varDecomps core) :
    core = b ++ '@' :: '@' :: (n ++ '@' :: '@' :: a) := by
  simp only [varDecomps, List.mem_flatten, List.mem_map,
    List.mem_reverse] at h
  obtain ⟨L, ⟨⟨p1, p2⟩, hp, hL⟩, hmem⟩ := h
  subst hL
  have hsplit := splits_spec core p1 p2 hp
  match p2, hmem with
  | c1 :: c2 :: rest, hmem =>
    simp only at hmem
    split at hmem
    · rename_i hc
      obtain ⟨hc1, hc2⟩ := hc
      simp only [List.mem_map] at hmem
      obtain ⟨⟨q1, q2⟩, hq, heq⟩ := hmem
      injection heq with e1 e23
      injection e23 with e2 e3
      have hrest := varTail_spec hq
      subst hc1; subst hc2
      subst e1; subst e2; subst e3
      rw [← hsplit, hrest]
    · exact absurd hmem (by simp)

theorem matchVar_spec {line b n a : List Char}
    (h : matchVar line = some (b, n, a)) :
    stripNl line = b ++ '@' :: '@' :: (n ++ '@' :: '@' :: a) ∧
      dotp b = true ∧ wordp n = true ∧ dotp a = true := by
  have hmem := List.mem_of_find?_eq_some h
  have hok := List.find?_some h
  simp only [varOk, Bool.and_eq_true] at hok
  exact ⟨varDecomps_spec hmem, hok.1.1, hok.1.2, hok.2⟩

theorem funcTail2_spec {rest2 pm a : List Char}
    (h : (pm, a) ∈ funcTail2 rest2) : rest2 = pm ++ ')' :: a := by
  simp only [funcTail2, List.mem_filterMap, List.mem_reverse] at h
  obtain ⟨⟨p1, p2⟩, hp, hf⟩ := h
  have hsplit := splits_spec rest2 p1 p2 hp
  match p2, hf with
  | c :: t, hf =>
    simp only at hf
    split at hf
    · rename_i hc
      injection hf with hpair
      injection hpair with h1 h2
      subst hc; subst h1; subst h2
      exact hsplit.symm
    · exact absurd hf (by simp)

theorem funcTail1_spec {rest n pm a : List Char}
    (h : (n, pm, a) ∈ funcTail1 rest) :
    rest = n ++ '(' :: (pm ++ ')' :: a) := by
  simp only [funcTail1, List.mem_flatten, List.mem_map,
    List.mem_reverse] at h
  obtain ⟨L, ⟨⟨p1, p2⟩, hp, hL⟩, hmem⟩ := h
  subst hL
  have hsplit := splits_spec rest p1 p2 hp
  match p2, hmem with
  | c :: rest2, hmem =>
    simp only at hmem
    split at hmem
    · rename_i hc
      simp only [List.mem_map] at hmem
      obtain ⟨⟨q1, q2⟩, hq, heq⟩ := hmem
      injection heq with e1 e23
      injection e23 with e2 e3
      have hrest2 := funcTail2_spec hq
      subst hc
      subst e1; subst e2; subst e3
      rw [← hsplit, hrest2]
    · exact absurd hmem (by simp)

theorem funcDecomps_spec {core b n pm a : List Char}
    (h : (b, n, pm, a) ∈ funcDecomps core) :
    core = b ++ '$' :: (n ++ '(' :: (pm ++ ')' :: a)) := by
  simp only [funcDecomps, List.mem_flatten, List.mem_map,
    List.mem_reverse] at h
  obtain ⟨L, ⟨⟨p1, p2⟩, hp, hL⟩, hmem⟩ := h
  subst hL
  have hsplit := splits_spec core p1 p2 hp
  match p2, hmem with
  | c :: rest, hmem =>
    simp only at hmem
    split at hmem
    · rename_i hc
      simp only [List.mem_map] at hmem
      obtain ⟨⟨q1, q2, q3⟩, hq, heq⟩ := hmem
      have hrest := funcTail1_spec hq
      injection heq with e1 e234
      injection e234 with e2 e34
      injection e34 with e3 e4
      subst hc
      subst e1; subst e2; subst e3; subst e4
      rw [← hsplit, hrest]
    · exact absurd hmem (by simp)

theorem matchFunc_spec {line b n pm a : List Char}
    (h : matchFunc line = some (b, n, pm, a)) :
    stripNl line = b ++ '$' :: (n ++ '(' :: (pm ++ ')' :: a)) ∧
      dotp b = true ∧ wordp n = true ∧ dotp pm = true ∧
      dotp a = true := by
  have hmem := List.mem_of_find?_eq_some h
  have hok := List.find?_some h
  simp only [funcOk, Bool.and_eq_true] at hok
  exact ⟨funcDecomps_spec hmem, hok.1.1.1, hok.1.1.2, hok.1.2, hok.2⟩

/-!
No-match lemmas: a line whose anchored region carries exactly the
characters of one placeholder situated at the very start or the very
end cannot be matched, because the `.+` groups on both sides each need
at least one character.
-/

theorem dotp_ne_nil {l : List Char} (h : dotp l = true) : l ≠ [] := by
  intro h0
  subst h0
  simp [dotp] at h

theorem head?_of_append {b rest : List Char} (hb : b ≠ []) :
    (b ++ rest).head? = b.head? := by
  cases b with
  | nil => exact absurd rfl hb
  | cons c t => rfl

theorem getLast?_of_append {x a : List Char} (ha : a ≠ []) :
    (x ++ a).getLast? = a.getLast? := by
  rw [List.getLast?_append, List.getLast?_eq_getLast a ha]
  rfl

theorem var_decomp_counts {core b n a : List Char}
    (hd : core = b ++ '@' :: '@' :: (n ++ '@' :: '@' :: a))
    (h4 : core.count '@' = 4) :
    b.count '@' = 0 ∧ a.count '@' = 0 := by
  subst hd
  simp only [List.count_append, List.count_cons_self] at h4
  omega

theorem matchVar_none_of {line : List Char}
    (h4 : (stripNl line).count '@' = 4)
    (hhl : (stripNl line).head? = some '@' ∨
           (stripNl line).getLast? = some '@') :
    matchVar line = none := by
  cases h : matchVar line with
  | none => rfl
  | some t =>
    exfalso
    obtain ⟨b, n, a⟩ := t
    obtain ⟨hd, hb, _, ha⟩ := matchVar_spec h
    have hbne := dotp_ne_nil hb
    have hane := dotp_ne_nil ha
    obtain ⟨cb0, ca0⟩ := var_decomp_counts hd h4
    rcases hhl with hh | hl
    · rw [hd, head?_of_append hbne] at hh
      cases b with
      | nil => exact absurd rfl hbne
      | cons c t =>
        have hc : c = '@' := by
          simpa using hh
        subst hc
        rw [List.count_cons_self] at cb0
        omega
    · have hd' : stripNl line = (b ++ '@' :: '@' :: (n ++ ['@', '@']))
          ++ a := by
        rw [hd]; simp
      rw [hd', getLast?_of_append hane,
        List.getLast?_eq_getLast a hane] at hl
      have hgl : a.getLast hane = '@' := by injection hl
      have hmem : '@' ∈ a := by
        rw [← hgl]; exact List.getLast_mem hane
      rw [List.count_eq_zero] at ca0
      exact ca0 hmem

theorem func_decomp_count_dollar {core b n pm a : List Char}
    (hd : core = b ++ '$' :: (n ++ '(' :: (pm ++ ')' :: a)))
    (h1 : core.count '$' = 1) : b.count '$' = 0 := by
  subst hd
  simp only [List.count_append, List.count_cons_self,
    List.count_cons_of_ne (show ('$' : Char) ≠ '(' by decide),
    List.count_cons_of_ne (show ('$' : Char) ≠ ')' by decide)] at h1
  omega

theorem func_decomp_count_paren {core b n pm a : List Char}
    (hd : core = b ++ '$' :: (n ++ '(' :: (pm ++ ')' :: a)))
    (h1 : core.count ')' = 1) : a.count ')' = 0 := by
  subst hd
  simp only [List.count_append, List.count_cons_self,
    List.count_cons_of_ne (show (')' : Char) ≠ '(' by decide),
    List.count_cons_of_ne (show (')' : Char) ≠ '$' by decide)] at h1
  omega

theorem matchFunc_none_head {line : List Char}
    (h1 : (stripNl line).count '$' = 1)
    (hh : (stripNl line).head? = some '$') :
    matchFunc line = none := by
  cases h : matchFunc line with
  | none => rfl
  | some t =>
    exfalso
    obtain ⟨b, n, pm, a⟩ := t
    obtain ⟨hd, hb, _, _, _⟩ := matchFunc_spec h
    have hbne := dotp_ne_nil hb
    have cb0 := func_decomp_count_dollar hd h1
    rw [hd, head?_of_append hbne] at hh
    cases b with
    | nil => exact absurd rfl hbne
    | cons c t =>
      have hc : c = '$' := by
        simpa using hh
      subst hc
      rw [List.count_cons_self] at cb0
      omega

theorem matchFunc_none_last {line : List Char}
    (h1 : (stripNl line).count ')' = 1)
    (hl : (stripNl line).getLast? = some ')') :
    matchFunc line = none := by
  cases h : matchFunc line with
  | none => rfl
  | some t =>
    exfalso
    obtain ⟨b, n, pm, a⟩ := t
    obtain ⟨hd, _, _, _, ha⟩ := matchFunc_spec h
    have hane := dotp_ne_nil ha
    have ca0 := func_decomp_count_paren hd h1
    have hd' : stripNl line = (b ++ '$' :: (n ++ '(' :: (pm ++ [')'])))
        ++ a := by
      rw [hd]; simp
    rw [hd', getLast?_of_append hane,
      List.getLast?_eq_getLast a hane] at hl
    have hgl : a.getLast hane = ')' := by injection hl
    have hmem : ')' ∈ a := by
      rw [← hgl]; exact List.getLast_mem hane
    rw [List.count_eq_zero] at ca0
    exact ca0 hmem

/-- C8: for every template line in which a `@@NAME@@` placeholder
occurs at the very start of the line (no character before the first
`@@`) or at the very end (no character, a trailing newline included,
after the closing `@@`), variable substitution leaves the placeholder
unreplaced, because the substitution pattern demands at least one
character of prefix and one character of suffix; the same boundary
requirement applies to `$FUNC(args)` lines.  Conjuncts: (1) every
successful variable match splits the anchored region around nonempty,
newline-free prefix and suffix groups; (2) likewise for function
matches; (3) a line whose anchored region is exactly `@@n@@s` with
`n` and `s` free of `@` — the placeholder sits at the very start — is
returned unchanged by the substitution loop; (4) likewise `p@@n@@`
with `p` and `n` free of `@` — the placeholder sits at the very end;
(5) a function line whose `$` is its first character is left unchanged
by function evaluation; (6) likewise one whose `)` is its last
character. -/
theorem c8_boundary :
    (∀ line b n a, matchVar line = some (b, n, a) →
      b ≠ [] ∧ a ≠ [] ∧ b.contains '\n' = false ∧
      a.contains '\n' = false ∧
      stripNl line = b ++ '@' :: '@' :: (n ++ '@' :: '@' :: a))
  ∧ (∀ line b n pm a, matchFunc line = some (b, n, pm, a) →
      b ≠ [] ∧ a ≠ [] ∧
      stripNl line = b ++ '$' :: (n ++ '(' :: (pm ++ ')' :: a)))
  ∧ (∀ vars fuel line n s,
      stripNl line = '@' :: '@' :: (n ++ '@' :: '@' :: s) →
      n.count '@' = 0 → s.count '@' = 0 →
      expandLine vars (fuel + 1) line = .ok line)
  ∧ (∀ vars fuel line p n,
      stripNl line = p ++ '@' :: '@' :: (n ++ ['@', '@']) →
      p.count '@' = 0 → n.count '@' = 0 →
      expandLine vars (fuel + 1) line = .ok line)
  ∧ (∀ ext fs g line r, stripNl line = '$' :: r → r.count '$' = 0 →
      execLine ext fs g line = .ok line)
  ∧ (∀ ext fs g line p, stripNl line = p ++ [')'] → p.count ')' = 0 →
      execLine ext fs g line = .ok line) := by
  refine ⟨?_, ?_, ?_, ?_, ?_, ?_⟩
  · intro line b n a h
    obtain ⟨hd, hb, _, ha⟩ := matchVar_spec h
    simp only [dotp, Bool.and_eq_true, Bool.not_eq_true'] at hb ha
    refine ⟨?_, ?_, hb.2, ha.2, hd⟩
    · intro h0; rw [h0] at hb; simp at hb
    · intro h0; rw [h0] at ha; simp at ha
  · intro line b n pm a h
    obtain ⟨hd, hb, _, _, ha⟩ := matchFunc_spec h
    exact ⟨dotp_ne_nil hb, dotp_ne_nil ha, hd⟩
  · intro vars fuel line n s hstrip hn hs
    have h4 : (stripNl line).count '@' = 4 := by
      rw [hstrip]
      simp [List.count_append, List.count_cons_self, hn, hs]
    have hh : (stripNl line).head? = some '@' := by rw [hstrip]; rfl
    simp [expandLine, matchVar_none_of h4 (Or.inl hh)]
  · intro vars fuel line p n hstrip hp hn
    have h4 : (stripNl line).count '@' = 4 := by
      rw [hstrip]
      simp [List.count_append, List.count_cons_self,
        List.count_singleton, hp, hn]
    have hl : (stripNl line).getLast? = some '@' := by
      have : stripNl line = (p ++ '@' :: '@' :: (n ++ ['@'])) ++ ['@'] := by
        rw [hstrip]; simp
      rw [this, List.getLast?_concat]
    simp [expandLine, matchVar_none_of h4 (Or.inr hl)]
  · intro ext fs g line r hstrip hr
    have h1 : (stripNl line).count '$' = 1 := by
      rw [hstrip]
      simp [List.count_cons_self, hr]
    have hh : (stripNl line).head? = some '$' := by rw [hstrip]; rfl
    simp [execLine, matchFunc_none_head h1 hh]
  · intro ext fs g line p hstrip hp
    have h1 : (stripNl line).count ')' = 1 := by
      rw [hstrip]
      simp [List.count_append, List.count_singleton, hp]
    have hl : (stripNl line).getLast? = some ')' := by
      rw [hstrip, List.getLast?_concat]
    simp [execLine, matchFunc_none_last h1 hl]

/-- C8 witness: a bare-placeholder line, a line ending in its
placeholder, and a function line starting with its `$` are all left
unchanged by the respective expansion passes. -/
theorem c8_boundary_witness :
    expandLine [] 1 ("@@VERSION@@\n".toList) =
      .ok ("@@VERSION@@\n".toList)
  ∧ expandLine [] 1 ("version = @@VERSION@@\n".toList) =
      .ok ("version = @@VERSION@@\n".toList)
  ∧ execLine extT fs0 g0 ("$swupdate_get_size(f)\n".toList) =
      .ok ("$swupdate_get_size(f)\n".toList) := by
  refine ⟨?_, ?_, ?_⟩
  · exact c8_boundary.2.2.1 [] 0 ("@@VERSION@@\n".toList)
      ("VERSION".toList) [] (by decide) (by decide) (by decide)
  · exact c8_boundary.2.2.2.1 [] 0 ("version = @@VERSION@@\n".toList)
      ("version = ".toList) ("VERSION".toList)
      (by decide) (by decide) (by decide)
  · exact c8_boundary.2.2.2.2.1 extT fs0 g0
      ("$swupdate_get_size(f)\n".toList)
      ("swupdate_get_size(f)".toList) (by decide) (by decide)

/-- C1: the claim states that after `process_entry` the entry's
`sha256` equals the hash of the final post-transform bytes.  The code
disagrees: `Artifact.get_sha256` always reads `source_path`, which is
never repointed at the transformed file, so the recorded hash is that
of the original source bytes — here the entry is encrypted, the final
bytes on disk at the archived path are `[3, 7, 9]`, yet the recorded
hash is the hash of the source bytes `[3, 7]` and differs from the
hash of the final bytes (contradicting the comment "recompute sha256,
now for the encrypted file" at `generator.py` line 147). -/
theorem c1_sha256_of_pre_transform_bytes :
    ∃ fs1 g1 e1, process_entry extT fs0 g0 eEnc = .ok (fs1, g1, e1)
      ∧ e1.sha256 = some (extT.sha256 [3, 7])
      ∧ e1.filename = some "f.enc"
      ∧ Fs.read fs1 "t/f.enc" = some [3, 7, 9]
      ∧ extT.aes "K" "IV0" [3, 7] = some [3, 7, 9]
      ∧ extT.sha256 [3, 7] ≠ extT.sha256 [3, 7, 9] := by
  refine ⟨_, _, _, rfl, ?_, ?_, ?_, ?_, ?_⟩ <;> decide

/-- C2: the claim states that `compressed = "zstd"` selects zstd and
that values outside the allow-list fail fatally.  The code remaps
every truthy value — `"zstd"` and the unknown `"lzma"` alike — to
`"zlib"` (`if cmp: cmp = "zlib"`), so zstd is never selected and
unknown algorithm names do not fail; moreover a run with
`compressed = "zstd"` aborts with `AttributeError` while building the
compressor command, before any compressor is invoked. -/
theorem c2_truthy_compressed_remapped_to_zlib :
    compressionAlgo (CVal.str "zstd") = .ok "zlib"
  ∧ compressionAlgo (CVal.str "zstd") ≠ .ok "zstd"
  ∧ compressionAlgo (CVal.str "lzma") = .ok "zlib"
  ∧ compressionAlgo (CVal.bool true) = .ok "zlib"
  ∧ process_entry extT fs0 g0 eZstd = .error .attrError := by
  refine ⟨rfl, ?_, rfl, rfl, rfl⟩
  intro h
  exact absurd (Except.ok.inj h) (by decide)

/-- C3: the claim states that a requested encryption with no
configured key terminates the build immediately with a fatal error and
that no encryption is attempted.  The code only logs at critical level
(`generator.py` lines 132-136, no `sys.exit`) and then proceeds into
`Artifact.encrypt` with `key = None`, which raises `TypeError` inside
`subprocess.run` — the run dies on an uncaught exception at the
encryption attempt, not on the fatal-error path. -/
theorem c3_missing_key_not_fatal_before_encrypt :
    process_entry extT fs0 gNoKey eEnc = .error .typeError
  ∧ PErr.typeError ≠ PErr.exit 1
  ∧ PErr.typeError ≠ PErr.exit 22 := by
  exact ⟨rfl, by decide, by decide⟩

/-- C4: the claim states that `$FUNC(ARGS)` lines dispatch only to the
fixed two built-ins and that any other name is a fatal configuration
error.  The code builds the string `self.NAME("ARGS")` and hands it to
Python `eval`: every attribute of the generator resolves, so the
method `setenckey` — outside the built-in list — is dispatched and
run from template text, and a name that is no attribute raises an
uncaught `AttributeError`; neither outcome is the critical-plus-exit
fatal configuration error the claim requires. -/
theorem c4_eval_dispatch_beyond_builtins :
    evalSelfCall extT fs0 g0 "setenckey" "k" =
      .error (.arbitraryCall "setenckey")
  ∧ "setenckey" ∈ generatorMethods
  ∧ "setenckey" ∉ templateBuiltins
  ∧ execLine extT fs0 g0 ("x$setenckey(k)y\n".toList) =
      .error (.arbitraryCall "setenckey")
  ∧ evalSelfCall extT fs0 g0 "frobnicate" "x" = .error .attrError
  ∧ PErr.arbitraryCall "setenckey" ≠ PErr.exit 1
  ∧ PErr.attrError ≠ PErr.exit 1 := by
  exact ⟨rfl, by decide, by decide, rfl, rfl, by decide, by decide⟩

/-- C5 counterexample: the dedup claim asserts that a filename
referenced more than once is compressed/encrypted exactly once and
that all duplicate entries end with identical final fields.  For a
duplicated entry requesting compression the pipeline never gets that
far: already the first occurrence aborts with `AttributeError` (the
compressor command reads the never-assigned `fullfilename`), so no
occurrence is processed at all. -/
theorem c5_counterexample_compressed_duplicates :
    process_entry extT fs0 g0 eCTrue = .error .attrError := by
  rfl

/-- C6: the claim states that every call site of `Artifact.encrypt`
treats a `false` result as fatal.  The per-artifact site does
(`sys.exit(1)`, first conjunct, with a cipher that exits nonzero); but
the whole-manifest site at `generator.py` line 226 discards the
result: with the `sw-description` pseudo-artifact (whose
`source_path` is unset) `encrypt` returns `false`, the block carries
on regardless, and the run then dies in `shutil.copyfile` with
`FileNotFoundError` — not the fatal exit the claim requires. -/
theorem c6_swdesc_encrypt_result_discarded :
    process_entry extF fs0 g0 eEnc = .error (.exit 1)
  ∧ swDesc.encrypt extT fs0 "t/sw-description.enc" (some "K") "IV0" =
      .ok (false, fs0)
  ∧ encrypt_swdesc_block extT fs0 gSwdesc swDesc "t/sw-description" =
      .error .fileNotFound
  ∧ PErr.fileNotFound ≠ PErr.exit 1 := by
  exact ⟨rfl, rfl, rfl, by decide⟩

theorem except_throw_eq {e : Type} {a : Type} (x : e) :
    (throw x : Except e a) = Except.error x := rfl

theorem except_pure_eq {e : Type} {a : Type} (x : a) :
    (pure x : Except e a) = Except.ok x := rfl

theorem except_bind_error {e : Type} {a b : Type} (x : e)
    (f : a → Except e b) : (Except.error x >>= f) = Except.error x := rfl

theorem except_bind_ok {e : Type} {a b : Type} (x : a)
    (f : a → Except e b) : (Except.ok x >>= f) = f x := rfl

theorem getArtifactSourcePath_none {fs : Fs} {f : String} :
    ∀ dirs : List String,
    (∀ d ∈ dirs, Fs.read fs (d ++ "/" ++ f) = none) →
    getArtifactSourcePath fs f dirs = none := by
  intro dirs
  induction dirs with
  | nil => intro _; rfl
  | cons d rest ih =>
    intro h
    simp only [getArtifactSourcePath]
    rw [h d (by simp)]
    simp only [Option.isSome_none, Bool.false_eq_true, if_false]
    exact ih (fun d' hd' => h d' (by simp [hd']))

/-- C7: an entry whose filename is found in none of the search
directories terminates the run with the distinct "artifact not found"
exit status 22 (`generator.py` line 80), different from the generic
status 1 used e.g. for a bad compression algorithm (line 90). -/
theorem c7_missing_artifact_exits_22 (ext : Ext) (fs : Fs)
    (g : GenState) (e : Entry) (f : String)
    (hf : e.filename = some f)
    (hmiss : ∀ d ∈ g.artifactory, Fs.read fs (d ++ "/" ++ f) = none)
    (hnew : findArtifact g.artifacts f = none) :
    process_entry ext fs g e = .error (.exit 22) ∧
      PErr.exit 22 ≠ PErr.exit 1 := by
  constructor
  · have hsp : getArtifactSourcePath fs f g.artifactory = none :=
      getArtifactSourcePath_none _ hmiss
    have hex : (Artifact.init fs f g.artifactory).existsOn fs = false := by
      simp [Artifact.init, Artifact.existsOn, hsp]
    simp [process_entry, hf, hnew, hex, except_throw_eq]
  · decide

/-- C7 witness: the fixture entry `zzz` resolves in no directory and
exits with status 22. -/
theorem c7_missing_artifact_exits_22_witness :
    process_entry extT fs0 g0 eMissing = .error (.exit 22) ∧
      PErr.exit 22 ≠ PErr.exit 1 :=
  c7_missing_artifact_exits_22 extT fs0 g0 eMissing "zzz" rfl
    (by decide) rfl

theorem compressionAlgo_falsy {v : CVal} (hv : v.truthy = false) :
    compressionAlgo v = .error (.exit 1) := by
  cases v with
  | bool b =>
    cases b
    · rfl
    · simp [CVal.truthy] at hv
  | str s =>
    have hs : s = "" := by
      by_contra h
      simp [CVal.truthy, h] at hv
    subst hs
    rfl

/-- C9: a first-seen entry whose `compressed` key holds a falsy value
(boolean false, empty string) with the global no-compress override
unset is not skipped: the falsy value survives the `if cmp:` remap,
fails the membership test `cmp not in ("zlib", "zstd")`, and the run
terminates with the wrong-compression-algorithm error, exit status 1
(`generator.py` lines 85-90). -/
theorem c9_falsy_compressed_fatal (ext : Ext) (fs : Fs) (g : GenState)
    (e : Entry) (f : String) (v : CVal)
    (hf : e.filename = some f)
    (hnew : findArtifact g.artifacts f = none)
    (hex : (Artifact.init fs f g.artifactory).existsOn fs = true)
    (hnc : g.nocompress = false)
    (hc : e.compressed = some v)
    (hv : v.truthy = false) :
    process_entry ext fs g e = .error (.exit 1) := by
  simp [process_entry, hf, hnew, hex, hnc, hc, compressionAlgo_falsy hv,
    except_throw_eq, except_pure_eq, except_bind_error, except_bind_ok]

/-- C9 witness: `compressed = false` and `compressed = ""` on the
fixture both exit with status 1. -/
theorem c9_falsy_compressed_fatal_witness :
    process_entry extT fs0 g0 eCFalse = .error (.exit 1) ∧
    process_entry extT fs0 g0 eCEmpty = .error (.exit 1) :=
  ⟨c9_falsy_compressed_fatal extT fs0 g0 eCFalse "f" (.bool false)
      rfl rfl (by decide) rfl rfl rfl,
   c9_falsy_compressed_fatal extT fs0 g0 eCEmpty "f" (.str "")
      rfl rfl (by decide) rfl rfl rfl⟩

/-- C10: the `Artifact` constructor assigns only `filename`,
`source_path`, `archived_filename` and `size` — never `fullfilename`
(first two conjuncts, which also cover `ivt`); consequently the final
packaging loop hits the `AttributeError` branch on any registered
artifact that was neither compressed nor encrypted (third conjunct),
and for a compressed entry the compression command construction itself
aborts the run with `AttributeError` before any compressor runs
(fourth conjunct). -/
theorem c10_fullfilename_unassigned (fs : Fs) (f : String)
    (dirs : List String) (l : List Artifact) (a : Artifact)
    (ha : a.fullfilename = none) :
    (Artifact.init fs f dirs).fullfilename = none
  ∧ (Artifact.init fs f dirs).ivt = none
  ∧ addArtifactsToSwu (a :: l) = .error .attrError
  ∧ (∀ ext g e cv algo, e.filename = some f →
      findArtifact g.artifacts f = none →
      (Artifact.init fs f g.artifactory).existsOn fs = true →
      g.nocompress = false → e.compressed = some cv →
      compressionAlgo cv = .ok algo →
      process_entry ext fs g e = .error .attrError) := by
  refine ⟨rfl, rfl, ?_, ?_⟩
  · simp [addArtifactsToSwu, ha]
  · intro ext g e cv algo hf hnew hex hnc hc halgo
    simp only [Artifact.init] at hex
    simp [process_entry, hf, hnew, hex, hnc, hc, halgo, Artifact.init,
      except_throw_eq, except_pure_eq, except_bind_error, except_bind_ok]

/-- C10 witness: the freshly constructed fixture artifact has no
`fullfilename`/`ivt`, packaging it fails with `AttributeError`, and
the compressed fixture entry aborts with `AttributeError`. -/
theorem c10_fullfilename_unassigned_witness :
    (Artifact.init fs0 "f" ["d"]).fullfilename = none
  ∧ (Artifact.init fs0 "f" ["d"]).ivt = none
  ∧ addArtifactsToSwu [Artifact.init fs0 "f" ["d"]] =
      .error .attrError
  ∧ process_entry extT fs0 g0 eCTrue = .error .attrError := by
  have h := c10_fullfilename_unassigned fs0 "f" ["d"] []
    (Artifact.init fs0 "f" ["d"]) rfl
  exact ⟨h.1, h.2.1, h.2.2.1,
    h.2.2.2 extT g0 eCTrue (.bool true) "zlib" rfl rfl (by decide)
      rfl rfl rfl⟩

theorem findArtifact_append_self {l : List Artifact} {f : String}
    (h : findArtifact l f = none) (a : Artifact) (ha : a.filename = f) :
    findArtifact (l ++ [a]) f = some a := by
  simp only [findArtifact] at h ⊢
  rw [List.find?_append, h]
  simp [List.find?, ha]

/-- Shape of a successful run of the first-seen tail
(`process_entry_tail`): exactly one artifact is appended to the
registry, keeping the input artifact's (original) filename; the
rewritten entry points at that artifact's archived name and current
hash, and — when the entry declares `encrypted` — at its stored IV
(a successful run with `encrypted` declared forces the IV to have
been stored, since the shared tail would otherwise have died on the
unset `ivt` attribute). -/
theorem process_entry_tail_shape {ext : Ext} {fs : Fs} {g : GenState}
    {e : Entry} {a3 : Artifact} {fs1 : Fs} {g1 : GenState} {e1 : Entry}
    (hrun : process_entry_tail ext fs g e a3 = .ok (fs1, g1, e1)) :
    ∃ a : Artifact,
      g1.artifacts = g.artifacts ++ [a]
      ∧ a.filename = a3.filename
      ∧ e1.filename = some a.archived_filename
      ∧ e1.sha256 = a.get_sha256 ext fs1
      ∧ (e.encrypted = true → ∃ iv, a.ivt = some iv ∧ e1.ivt = some iv)
      := by
  cases he : e.encrypted with
  | false =>
    simp only [process_entry_tail, he, except_bind_ok, except_pure_eq,
      finishEntry, Bool.false_eq_true, if_false] at hrun
    have htup := Except.ok.inj hrun
    simp only [Prod.mk.injEq] at htup
    obtain ⟨h1, h2, h3⟩ := htup
    refine ⟨a3, ?_, rfl, ?_, ?_, by simp [he]⟩
    · rw [← h2]
    · rw [← h3]
    · rw [← h3, ← h1]
  | true =>
    cases hne : g.noencrypt with
    | true =>
      simp only [process_entry_tail, he, hne, except_bind_ok,
        except_pure_eq, finishEntry, if_true] at hrun
      cases hiv : a3.ivt with
      | none =>
        rw [hiv] at hrun
        simp [except_throw_eq, except_bind_error] at hrun
      | some iv =>
        rw [hiv] at hrun
        simp only [except_bind_ok] at hrun
        have htup := Except.ok.inj hrun
        simp only [Prod.mk.injEq] at htup
        obtain ⟨h1, h2, h3⟩ := htup
        refine ⟨a3, ?_, rfl, ?_, ?_, fun _ => ⟨iv, hiv, ?_⟩⟩
        · rw [← h2]
        · rw [← h3]
        · rw [← h3, ← h1]
        · rw [← h3]
    | false =>
      simp only [process_entry_tail, he, hne, except_bind_ok,
        except_pure_eq] at hrun
      cases hsp : a3.source_path with
      | none =>
        simp only [Artifact.encrypt, hsp, except_bind_ok] at hrun
        simp [except_throw_eq, except_bind_error] at hrun
      | some p =>
        simp only [Artifact.encrypt, hsp] at hrun
        cases hk : g.aeskey with
        | none =>
          rw [hk] at hrun
          simp [except_bind_error] at hrun
        | some k =>
          rw [hk] at hrun
          simp only [except_bind_ok] at hrun
          cases hbs : Fs.read fs p with
          | none =>
            rw [hbs] at hrun
            simp only [except_bind_ok] at hrun
            cases hcf : ext.cipherFailLeavesFile <;>
              rw [hcf] at hrun <;>
              simp [except_throw_eq, except_bind_error,
                except_bind_ok] at hrun
          | some bs =>
            rw [hbs] at hrun
            simp only [except_bind_ok] at hrun
            cases haes : ext.aes k
                (if g.noivt = true then g.aesiv
                 else ext.tokenHex g.ivCount) bs with
            | none =>
              rw [haes] at hrun
              cases hcf : ext.cipherFailLeavesFile <;>
                rw [hcf] at hrun <;>
                simp [except_throw_eq, except_bind_error,
                  except_bind_ok] at hrun
            | some enc =>
              rw [haes] at hrun
              simp only [except_bind_ok, Bool.true_eq_false, if_false,
                finishEntry, he, if_true] at hrun
              have htup := Except.ok.inj hrun
              simp only [Prod.mk.injEq] at htup
              obtain ⟨h1, h2, h3⟩ := htup
              refine ⟨{ a3 with
                  archived_filename :=
                    a3.archived_filename ++ "." ++ "enc",
                  fullfilename := some (g.tempdir ++ "/"
                    ++ (a3.archived_filename ++ "." ++ "enc")),
                  ivt := some (if g.noivt = true then g.aesiv
                    else ext.tokenHex g.ivCount) },
                ?_, rfl, ?_, ?_, fun _ =>
                  ⟨(if g.noivt = true then g.aesiv
                    else ext.tokenHex g.ivCount), rfl, ?_⟩⟩
              · rw [← h2]; simp [hsp]
              · rw [← h3]
              · rw [← h3, ← h1]; simp [hsp]
              · rw [← h3]

/-- Shape of a successful first-seen run of `process_entry`: the run
reaches the tail with the freshly constructed artifact (the
compression branch, when taken, always dies on the unset
`fullfilename` attribute), so exactly one artifact carrying the
entry's filename is appended and the entry is rewritten from it. -/
theorem process_entry_first_seen {ext : Ext} {fs : Fs} {g : GenState}
    {e : Entry} {f : String} {fs1 : Fs} {g1 : GenState} {e1 : Entry}
    (hf : e.filename = some f)
    (hnew : findArtifact g.artifacts f = none)
    (hrun : process_entry ext fs g e = .ok (fs1, g1, e1)) :
    ∃ a : Artifact,
      g1.artifacts = g.artifacts ++ [a]
      ∧ a.filename = f
      ∧ e1.filename = some a.archived_filename
      ∧ e1.sha256 = a.get_sha256 ext fs1
      ∧ (e.encrypted = true → ∃ iv, a.ivt = some iv ∧ e1.ivt = some iv)
      := by
  simp only [process_entry, hf, hnew] at hrun
  cases hex : (Artifact.init fs f g.artifactory).existsOn fs with
  | false =>
    rw [hex] at hrun
    simp [except_throw_eq] at hrun
  | true =>
    rw [hex] at hrun
    simp only [Bool.true_eq_false, if_false] at hrun
    -- the compression branch cannot have been taken: it always dies
    -- on the unset fullfilename attribute
    rcases hc : e.compressed with _ | cv <;> rw [hc] at hrun
    case none =>
      simp only [except_bind_ok, except_pure_eq] at hrun
      obtain ⟨a, h⟩ := process_entry_tail_shape hrun
      exact ⟨a, h.1, h.2.1, h.2.2⟩
    case some =>
      rcases hnc : g.nocompress with _ | _ <;> rw [hnc] at hrun <;>
        simp only [except_bind_ok, except_pure_eq] at hrun
      case false =>
        rcases halgo : compressionAlgo cv with perr | algo <;>
          rw [halgo] at hrun <;>
          simp [Artifact.init, except_throw_eq, except_bind_error,
            except_bind_ok] at hrun
      case true =>
        obtain ⟨a, h⟩ := process_entry_tail_shape hrun
        exact ⟨a, h.1, h.2.1, h.2.2⟩

/-- C5 (amended): provided no duplicate entry requests compression
(a compressed entry always aborts on the unset `fullfilename`
attribute, see the counterexample) and the first occurrence declares
`encrypted` whenever a later duplicate does, the dedup invariant
holds: after a successful first-seen run, processing a later
duplicate of the same filename returns the filesystem and the
artifact registry unchanged — resolution, transformation and
registration happened exactly once, on first encounter — and the
duplicate entry ends with the same `filename`, `sha256` and (when it
declares `encrypted`) `ivt` values as the first entry. -/
theorem c5_dedup_amended (ext : Ext) (fs : Fs) (g : GenState)
    (e1 e2 : Entry) (f : String) (fs1 : Fs) (g1 : GenState)
    (e1r : Entry)
    (hf1 : e1.filename = some f)
    (hf2 : e2.filename = some f)
    (henc : e2.encrypted = true → e1.encrypted = true)
    (hnew : findArtifact g.artifacts f = none)
    (hrun : process_entry ext fs g e1 = .ok (fs1, g1, e1r)) :
    ∃ e2r, process_entry ext fs1 g1 e2 = .ok (fs1, g1, e2r)
      ∧ e2r.filename = e1r.filename
      ∧ e2r.sha256 = e1r.sha256
      ∧ (e2.encrypted = true → e2r.ivt = e1r.ivt) := by
  obtain ⟨a, hga, haf, hfn, hsha, hivt⟩ :=
    process_entry_first_seen hf1 hnew hrun
  have hfind : findArtifact g1.artifacts f = some a := by
    rw [hga]; exact findArtifact_append_self hnew a haf
  cases he2 : e2.encrypted with
  | false =>
    refine ⟨{ e2 with
        filename := some a.archived_filename
        sha256 := a.get_sha256 ext fs1 }, ?_, ?_, ?_, ?_⟩
    · simp [process_entry, hf2, hfind, finishEntry, he2,
        except_bind_ok, except_pure_eq]
    · simp [hfn]
    · simp [hsha]
    · intro h; exact Bool.noConfusion h
  | true =>
    obtain ⟨iv, hai, h1i⟩ := hivt (henc he2)
    refine ⟨{ e2 with
        filename := some a.archived_filename
        sha256 := a.get_sha256 ext fs1
        ivt := some iv }, ?_, ?_, ?_, ?_⟩
    · simp [process_entry, hf2, hfind, finishEntry, he2, hai,
        except_bind_ok, except_pure_eq]
    · simp [hfn]
    · simp [hsha]
    · intro h'
      rw [h1i]

/-- C5 witness: after the successful encrypted first-seen run of the
fixture, a duplicate of the same entry is processed via the dedup
path, leaving filesystem and registry unchanged and carrying the
identical `filename`, `sha256` and `ivt` values. -/
theorem c5_dedup_amended_witness :
    ∃ e2r, process_entry extT fs1Fix g1Fix eEnc =
        .ok (fs1Fix, g1Fix, e2r)
      ∧ e2r.filename = e1Fix.filename
      ∧ e2r.sha256 = e1Fix.sha256
      ∧ (eEnc.encrypted = true → e2r.ivt = e1Fix.ivt) :=
  c5_dedup_amended extT fs0 g0 eEnc eEnc "f" fs1Fix g1Fix e1Fix rfl
    rfl (fun h => h) rfl (by rfl)

end SwuGen
